import Mathlib

/-!
Verification of gcsls (list Google Cloud Storage objects with wildcard support).

The original program is Go code in `main.go`.  Its pure logic — path parsing,
literal-prefix extraction, and the per-key filtering loop — is embedded below
on `List Char` / `String`.  The glob matcher itself lives in the external
`doublestar` library, so it is modelled from the specification's description
of its semantics (see `doublestarMatch`).  The storage backend is modelled as
the list of keys present in the bucket; a prefix-scoped listing returns, in
order, exactly the keys that start with the prefix.
-/

deriving instance DecidableEq for Except

namespace Gcsls

/-- The wildcard metacharacters of `getPrefixFromPattern`: `*`, `?`, `[`
(the Go code's `strings.IndexAny(pattern, "*?[")`). -/
def isWildcardChar (c : Char) : Bool :=
  c == '*' || c == '?' || c == '['

/-- Embedding of Go `getPrefixFromPattern`: the part of the pattern before the
first wildcard character, the whole pattern if there is none.  Go computes
`strings.IndexAny(pattern, "*?[")` and slices; `List.findIdx` returns the
length when no wildcard occurs, so the `-1` branch folds into `take`. -/
def getPrefixFromPattern (pattern : List Char) : List Char :=
  pattern.take (pattern.findIdx isWildcardChar)

/-- Recursive reformulation of `getPrefixFromPattern`, convenient for proofs. -/
def litPrefix : List Char → List Char
  | [] => []
  | c :: rest => if isWildcardChar c then [] else c :: litPrefix rest

/-- Splitting a key or pattern into `/`-separated segments.  Always returns a
non-empty list; splitting the empty string yields `[[]]`. -/
def splitSeg : List Char → List (List Char)
  | [] => [[]]
  | c :: rest =>
    if c = '/' then [] :: splitSeg rest
    else
      match splitSeg rest with
      | [] => [[c]]
      | s :: ss => (c :: s) :: ss

/-- Joining segments back with `/`. -/
def joinSegs : List (List Char) → List Char
  | [] => []
  | [s] => s
  | s :: ss => s ++ '/' :: joinSegs ss

/-- Modelled from the spec: parsing of a `[...]` character class, which the
code delegates to the external doublestar library (`doublestar.Match`); the
library source is not part of this repository.  Reads class items (single
characters or `a-b` ranges) up to the closing `]`; returns the items and the
rest of the pattern, or `none` when the bracket is unterminated. -/
def readClassItems : List Char → Option (List (Char × Char) × List Char)
  | [] => none
  | ']' :: rest => some ([], rest)
  | c :: '-' :: hi :: rest' =>
    match readClassItems rest' with
    | none => none
    | some (items, r) => some ((c, hi) :: items, r)
  | c :: rest =>
    match readClassItems rest with
    | none => none
    | some (items, r) => some ((c, c) :: items, r)

/-- Modelled from the spec: a character class, with optional leading `!` or
`^` negation, as in the doublestar library's glob syntax. -/
def readClass : List Char → Option (Bool × List (Char × Char) × List Char)
  | [] => none
  | c :: rest =>
    if c = '!' ∨ c = '^' then
      match readClassItems rest with
      | none => none
      | some (items, r) => some (true, items, r)
    else
      match readClassItems (c :: rest) with
      | none => none
      | some (items, r) => some (false, items, r)

/-- Whether a character is accepted by a (possibly negated) class. -/
def classMatches (neg : Bool) (items : List (Char × Char)) (c : Char) : Bool :=
  neg != items.any fun i => decide (i.1 ≤ c ∧ c ≤ i.2)

/-- The one kind of matcher failure: a syntactically malformed glob pattern
(the spec's `PatternError`, doublestar's `ErrBadPattern`). -/
inductive GlobErr
  | badPattern
deriving DecidableEq, Repr

/-- Modelled from the spec: glob matching of a single path segment, as done by
the external doublestar library inside one `/`-free segment.  `*` matches any
character sequence within the segment, `?` exactly one character, `[...]` a
character class, anything else itself.  An unterminated bracket is a
`badPattern` error.  Fuel-structural so that it evaluates by `decide`; the
callers always pass sufficient fuel, and fuel exhaustion answers `false`. -/
def matchOneF : Nat → List Char → List Char → Except GlobErr Bool
  | 0, _, _ => .ok false
  | _ + 1, [], [] => .ok true
  | _ + 1, [], _ :: _ => .ok false
  | f + 1, c :: ps, s =>
    if c = '*' then
      match matchOneF f ps s with
      | .error e => .error e
      | .ok true => .ok true
      | .ok false =>
        match s with
        | [] => .ok false
        | _ :: s' => matchOneF f (c :: ps) s'
    else if c = '[' then
      match readClass ps with
      | none => .error .badPattern
      | some (neg, items, rest) =>
        match s with
        | [] => .ok false
        | k :: s' => if classMatches neg items k then matchOneF f rest s' else .ok false
    else if c = '?' then
      match s with
      | [] => .ok false
      | _ :: s' => matchOneF f ps s'
    else
      match s with
      | [] => .ok false
      | k :: s' => if c = k then matchOneF f ps s' else .ok false

/-- Modelled from the spec: segment-level glob matching with recursive `**`.
A pattern segment that is exactly `**` matches any number of key segments,
including zero; any other pattern segment must match exactly one key segment
via `matchOneF`.  This renders the spec's "`**` matches across path-separator
boundaries, i.e., any number of path segments including zero". -/
def matchSegsF : Nat → List (List Char) → List (List Char) → Except GlobErr Bool
  | 0, _, _ => .ok false
  | _ + 1, [], [] => .ok true
  | _ + 1, [], _ :: _ => .ok false
  | f + 1, p :: ps, ks =>
    if p = ['*', '*'] then
      match matchSegsF f ps ks with
      | .error e => .error e
      | .ok true => .ok true
      | .ok false =>
        match ks with
        | [] => .ok false
        | _ :: ks' => matchSegsF f (p :: ps) ks'
    else
      match ks with
      | [] => .ok false
      | k :: ks' =>
        match matchOneF (p.length + k.length + 1) p k with
        | .error e => .error e
        | .ok true => matchSegsF f ps ks'
        | .ok false => .ok false

/-- Modelled from the spec: `doublestar.Match pattern name` — the full-pattern
client-side match predicate.  The pattern and the candidate key are split
into `/`-separated segments and matched segment-wise. -/
def doublestarMatch (pattern name : List Char) : Except GlobErr Bool :=
  matchSegsF ((splitSeg pattern).length + (splitSeg name).length + 1)
    (splitSeg pattern) (splitSeg name)

/-- Embedding of Go `strings.SplitN(s, "/", 2)`: the text before the first
`/` and, when a `/` occurs, the text after it. -/
def splitN2 : List Char → List Char × Option (List Char)
  | [] => ([], none)
  | c :: rest =>
    if c = '/' then ([], some rest)
    else
      let p := splitN2 rest
      (c :: p.1, p.2)

/-- The error outcomes of `listObjectsWithWildcard` that the embedded pure
logic can produce: the two `InvalidPath` rejections of path parsing, and the
`PatternError` raised when `doublestar.Match` reports a malformed pattern.
(`BackendError` does not arise: the backend is modelled as a plain key list.) -/
inductive RunError
  | invalidPath (msg : String)
  | patternError (pattern : String)
deriving DecidableEq, Repr

/-- The object-iteration loop of `listObjectsWithWildcard`: match each
candidate key against the full pattern, collecting one stdout line per match
and whether any match occurred; a matcher error aborts the run. -/
def runLoop (pattern : List Char) (bucketName : String) :
    List String → Except GlobErr (List String × Bool)
  | [] => .ok ([], false)
  | k :: ks =>
    match doublestarMatch pattern k.data with
    | .error e => .error e
    | .ok m =>
      match runLoop pattern bucketName ks with
      | .error e => .error e
      | .ok (lines, found) =>
        if m then .ok (("gs://" ++ bucketName ++ "/" ++ k) :: lines, true)
        else .ok (lines, found)

/-- Embedding of Go `listObjectsWithWildcard`.  `bucketKeys` models the
bucket's contents in backend listing order; the prefix-scoped listing
(`storage.Query{Prefix: ...}`) returns exactly the keys starting with the
prefix, in that order.  On success the result is the full stdout line
sequence of the run: the leading "Listing objects in ..." line, one line per
matched key, and the no-match message when nothing matched. -/
def listObjectsWithWildcard (gcsPath : String) (bucketKeys : List String) :
    Except RunError (List String) :=
  if ("gs://".data.isPrefixOf gcsPath.data) = false then
    .error (.invalidPath "invalid GCS path: must start with gs://")
  else
    let pathWithoutScheme := gcsPath.data.drop 5
    let parts := splitN2 pathWithoutScheme
    if parts.1 = [] then .error (.invalidPath "invalid GCS path: bucket name is missing")
    else
      let bucketName : String := ⟨parts.1⟩
      let rawPattern : List Char := (parts.2).getD []
      let objectPattern : List Char := if rawPattern = [] then "**".data else rawPattern
      let pfx := getPrefixFromPattern objectPattern
      let candidates := bucketKeys.filter fun k => pfx.isPrefixOf k.data
      let header : String :=
        "Listing objects in gs://" ++ bucketName ++ " matching pattern: " ++ ⟨objectPattern⟩
      match runLoop objectPattern bucketName candidates with
      | .error _ => .error (.patternError ⟨objectPattern⟩)
      | .ok (lines, found) =>
        .ok (header :: lines ++ if found then [] else ["No objects found matching the pattern."])

/-! ### Basic prefix-order helpers -/

theorem prefix_nil_any (l : List Char) : [] <+: l :=
  ⟨l, rfl⟩

theorem prefix_self (l : List Char) : l <+: l :=
  ⟨[], by simp⟩

theorem prefix_extend {x y : List Char} (z : List Char) (h : x <+: y) : x <+: y ++ z := by
  obtain ⟨t, rfl⟩ := h
  exact ⟨t ++ z, by simp⟩

theorem prefix_cons_cons {x y : List Char} (c : Char) (h : x <+: y) : c :: x <+: c :: y := by
  obtain ⟨t, rfl⟩ := h
  exact ⟨t, rfl⟩

theorem prefix_append_left {x y : List Char} (a : List Char) (h : x <+: y) :
    a ++ x <+: a ++ y := by
  obtain ⟨t, rfl⟩ := h
  exact ⟨t, by simp⟩

/-! ### Lemmas about the literal prefix -/

theorem litPrefix_cons (c : Char) (rest : List Char) :
    litPrefix (c :: rest) = if isWildcardChar c then [] else c :: litPrefix rest := rfl

theorem getPrefixFromPattern_eq_litPrefix (p : List Char) :
    getPrefixFromPattern p = litPrefix p := by
  induction p with
  | nil => rfl
  | cons c rest ih =>
    unfold getPrefixFromPattern at ih ⊢
    rw [litPrefix_cons, List.findIdx_cons]
    cases hw : isWildcardChar c
    · simp only [hw, cond_false, List.take_succ_cons, if_neg (by simp : ¬ (false = true))]
      rw [ih]
    · simp [hw]

theorem litPrefix_eq_takeWhile (p : List Char) :
    litPrefix p = p.takeWhile fun c => !isWildcardChar c := by
  induction p with
  | nil => rfl
  | cons c rest ih =>
    cases hw : isWildcardChar c <;>
      simp [litPrefix_cons, List.takeWhile_cons, hw, ih]

theorem litPrefix_wildfree (p : List Char) : ∀ c ∈ litPrefix p, isWildcardChar c = false := by
  induction p with
  | nil => simp [litPrefix]
  | cons c rest ih =>
    intro d hd
    cases hw : isWildcardChar c
    · rw [litPrefix_cons, if_neg (by simp [hw])] at hd
      rcases List.mem_cons.mp hd with rfl | hd'
      · exact hw
      · exact ih d hd'
    · rw [litPrefix_cons, if_pos (by simp [hw])] at hd
      cases hd

theorem litPrefix_le (p : List Char) : litPrefix p <+: p := by
  induction p with
  | nil => exact prefix_self []
  | cons c rest ih =>
    cases hw : isWildcardChar c
    · rw [litPrefix_cons, if_neg (by simp [hw])]
      exact prefix_cons_cons c ih
    · rw [litPrefix_cons, if_pos (by simp [hw])]
      exact prefix_nil_any _

theorem litPrefix_of_wildfree {p : List Char} (h : ∀ c ∈ p, isWildcardChar c = false) :
    litPrefix p = p := by
  induction p with
  | nil => rfl
  | cons c rest ih =>
    rw [litPrefix_cons, if_neg (by simp [h c (by simp)]), ih fun d hd => h d (by simp [hd])]

theorem litPrefix_idem (p : List Char) : litPrefix (litPrefix p) = litPrefix p :=
  litPrefix_of_wildfree (litPrefix_wildfree p)

theorem litPrefix_append_of_wildfree {a : List Char} (b : List Char)
    (h : ∀ c ∈ a, isWildcardChar c = false) : litPrefix (a ++ b) = a ++ litPrefix b := by
  induction a with
  | nil => rfl
  | cons c a' ih =>
    rw [List.cons_append, litPrefix_cons, if_neg (by simp [h c (by simp)]),
      ih fun d hd => h d (by simp [hd]), List.cons_append]

theorem litPrefix_append_of_wild {a : List Char} (b : List Char)
    (h : ∃ c ∈ a, isWildcardChar c = true) : litPrefix (a ++ b) = litPrefix a := by
  induction a with
  | nil => simp at h
  | cons c a' ih =>
    cases hw : isWildcardChar c
    · have h' : ∃ d ∈ a', isWildcardChar d = true := by
        obtain ⟨d, hd, hwd⟩ := h
        rcases List.mem_cons.mp hd with rfl | hd'
        · rw [hw] at hwd
          cases hwd
        · exact ⟨d, hd', hwd⟩
      rw [List.cons_append, litPrefix_cons, if_neg (by simp [hw]), litPrefix_cons,
        if_neg (by simp [hw]), ih h']
    · rw [List.cons_append, litPrefix_cons, if_pos (by simp [hw]), litPrefix_cons,
        if_pos (by simp [hw])]

/-! ### Lemmas about segment splitting and joining -/

theorem splitSeg_ne_nil (l : List Char) : splitSeg l ≠ [] := by
  induction l with
  | nil => simp [splitSeg]
  | cons c rest ih =>
    by_cases hc : c = '/'
    · simp [splitSeg, hc]
    · rw [splitSeg, if_neg hc]
      cases hs : splitSeg rest with
      | nil => simp
      | cons s ss => simp

theorem joinSegs_cons_cons (s t : List Char) (ts : List (List Char)) :
    joinSegs (s :: t :: ts) = s ++ '/' :: joinSegs (t :: ts) := rfl

theorem joinSegs_splitSeg (l : List Char) : joinSegs (splitSeg l) = l := by
  induction l with
  | nil => rfl
  | cons c rest ih =>
    by_cases hc : c = '/'
    · subst hc
      rw [splitSeg, if_pos rfl]
      cases hs : splitSeg rest with
      | nil => exact absurd hs (splitSeg_ne_nil rest)
      | cons s ss =>
        rw [joinSegs_cons_cons, List.nil_append, ← hs, ih]
    · rw [splitSeg, if_neg hc]
      cases hs : splitSeg rest with
      | nil => exact absurd hs (splitSeg_ne_nil rest)
      | cons s ss =>
        cases ss with
        | nil =>
          show c :: s = c :: rest
          rw [show s = joinSegs [s] from rfl, ← hs, ih]
        | cons t ts =>
          rw [joinSegs_cons_cons, List.cons_append, ← joinSegs_cons_cons, ← hs, ih]

/-! ### The glob matcher only accepts keys extending the literal prefix
(with one boundary exception: a trailing `/**` matching zero segments) -/

theorem matchOneF_true_litPrefix :
    ∀ (f : Nat) (p s : List Char), matchOneF f p s = .ok true → litPrefix p <+: s := by
  intro f
  induction f with
  | zero =>
    intro p s h
    simp [matchOneF] at h
  | succ f ih =>
    intro p s h
    cases p with
    | nil => exact prefix_nil_any s
    | cons c ps =>
      by_cases hstar : c = '*'
      · rw [litPrefix_cons, if_pos (by simp [isWildcardChar, hstar])]
        exact prefix_nil_any s
      · by_cases hbr : c = '['
        · rw [litPrefix_cons, if_pos (by simp [isWildcardChar, hbr])]
          exact prefix_nil_any s
        · by_cases hq : c = '?'
          · rw [litPrefix_cons, if_pos (by simp [isWildcardChar, hq])]
            exact prefix_nil_any s
          · simp only [matchOneF, if_neg hstar, if_neg hbr, if_neg hq] at h
            cases s with
            | nil => exact absurd h (by simp)
            | cons k s' =>
              have h' : (if c = k then matchOneF f ps s' else Except.ok false) =
                  Except.ok true := h
              by_cases hck : c = k
              · rw [if_pos hck] at h'
                rw [litPrefix_cons, if_neg (by simp [isWildcardChar, hstar, hbr, hq])]
                subst hck
                exact prefix_cons_cons c (ih ps s' h')
              · rw [if_neg hck] at h'
                exact absurd h' (by simp)

theorem matchOneF_true_wildfree_eq :
    ∀ (f : Nat) (p s : List Char), (∀ c ∈ p, isWildcardChar c = false) →
      matchOneF f p s = .ok true → s = p := by
  intro f
  induction f with
  | zero =>
    intro p s _ h
    simp [matchOneF] at h
  | succ f ih =>
    intro p s hw h
    cases p with
    | nil =>
      cases s with
      | nil => rfl
      | cons k s' => simp [matchOneF] at h
    | cons c ps =>
      have hc : isWildcardChar c = false := hw c (by simp)
      have hstar : ¬ c = '*' := by
        intro e
        subst e
        simp [isWildcardChar] at hc
      have hbr : ¬ c = '[' := by
        intro e
        subst e
        simp [isWildcardChar] at hc
      have hq : ¬ c = '?' := by
        intro e
        subst e
        simp [isWildcardChar] at hc
      simp only [matchOneF, if_neg hstar, if_neg hbr, if_neg hq] at h
      cases s with
      | nil => exact absurd h (by simp)
      | cons k s' =>
        have h' : (if c = k then matchOneF f ps s' else Except.ok false) =
            Except.ok true := h
        by_cases hck : c = k
        · rw [if_pos hck] at h'
          rw [ih ps s' (fun d hd => hw d (by simp [hd])) h', hck]
        · rw [if_neg hck] at h'
          exact absurd h' (by simp)

theorem matchSegsF_nil_key (f : Nat) (P : List (List Char))
    (h : matchSegsF f P [] = .ok true) : litPrefix (joinSegs P) = [] := by
  cases f with
  | zero => simp [matchSegsF] at h
  | succ f =>
    cases P with
    | nil => rfl
    | cons p ps =>
      by_cases hp : p = ['*', '*']
      · subst hp
        cases ps with
        | nil => simp [joinSegs, litPrefix, isWildcardChar]
        | cons q qs => simp [joinSegs_cons_cons, litPrefix_cons, isWildcardChar]
      · simp only [matchSegsF, if_neg hp] at h
        exact absurd h (by simp)

theorem matchSegsF_true_main :
    ∀ (f : Nat) (P K : List (List Char)), matchSegsF f P K = .ok true →
      litPrefix (joinSegs P) <+: joinSegs K ∨
        litPrefix (joinSegs P) = joinSegs K ++ ['/'] := by
  intro f
  induction f with
  | zero =>
    intro P K h
    simp [matchSegsF] at h
  | succ f ih =>
    intro P K h
    cases P with
    | nil =>
      cases K with
      | nil => exact Or.inl ⟨[], rfl⟩
      | cons k ks => simp [matchSegsF] at h
    | cons p ps =>
      by_cases hp : p = ['*', '*']
      · left
        subst hp
        have hnil : litPrefix (joinSegs (['*', '*'] :: ps)) = [] := by
          cases ps with
          | nil => simp [joinSegs, litPrefix, isWildcardChar]
          | cons q qs => simp [joinSegs_cons_cons, litPrefix_cons, isWildcardChar]
        rw [hnil]
        exact prefix_nil_any _
      · simp only [matchSegsF, if_neg hp] at h
        cases K with
        | nil => exact absurd h (by simp)
        | cons k ks =>
          have h0 : (match matchOneF (p.length + k.length + 1) p k with
              | Except.error e => Except.error e
              | Except.ok true => matchSegsF f ps ks
              | Except.ok false => Except.ok false) = Except.ok true := h
          cases hm : matchOneF (p.length + k.length + 1) p k with
          | error e =>
            rw [hm] at h0
            exact absurd h0 (by simp)
          | ok b =>
            rw [hm] at h0
            cases b with
            | false => exact absurd h0 (by simp)
            | true =>
              by_cases hw : ∀ c ∈ p, isWildcardChar c = false
              · have hk : k = p := matchOneF_true_wildfree_eq _ p k hw hm
                cases ps with
                | nil =>
                  have hks : ks = [] := by
                    cases f with
                    | zero => simp [matchSegsF] at h0
                    | succ f' =>
                      cases ks with
                      | nil => rfl
                      | cons r rs => simp [matchSegsF] at h0
                  subst hks
                  subst hk
                  exact Or.inl (litPrefix_le k)
                | cons q qs =>
                  have hjl : litPrefix (joinSegs (p :: q :: qs)) =
                      p ++ '/' :: litPrefix (joinSegs (q :: qs)) := by
                    rw [joinSegs_cons_cons, litPrefix_append_of_wildfree _ hw, litPrefix_cons,
                      if_neg (by simp [isWildcardChar])]
                  cases ks with
                  | nil =>
                    right
                    rw [hjl, matchSegsF_nil_key f (q :: qs) h0]
                    show p ++ ['/'] = k ++ ['/']
                    rw [hk]
                  | cons r rs =>
                    rcases ih (q :: qs) (r :: rs) h0 with hl | hr
                    · left
                      rw [hjl, joinSegs_cons_cons, hk]
                      exact prefix_append_left p (prefix_cons_cons '/' hl)
                    · right
                      rw [hjl, hr, joinSegs_cons_cons, hk]
                      simp
              · left
                push_neg at hw
                obtain ⟨c0, hc0, hwc0⟩ := hw
                have hwild : ∃ c ∈ p, isWildcardChar c = true := ⟨c0, hc0, by simpa using hwc0⟩
                have h6 := matchOneF_true_litPrefix _ p k hm
                have hjp : litPrefix (joinSegs (p :: ps)) = litPrefix p := by
                  cases ps with
                  | nil => rfl
                  | cons q qs => rw [joinSegs_cons_cons, litPrefix_append_of_wild _ hwild]
                rw [hjp]
                cases ks with
                | nil => exact h6
                | cons r rs =>
                  rw [joinSegs_cons_cons]
                  exact prefix_extend _ h6

/-! ### A bare unterminated bracket makes every match attempt fail -/

theorem matchOneF_lbracket_err (f : Nat) (ps s : List Char) (hrc : readClass ps = none) :
    matchOneF (f + 1) ('[' :: ps) s = .error .badPattern := by
  simp only [matchOneF]
  rw [hrc, if_neg (by decide : ¬ ('[' : Char) = '*'), if_pos trivial]

theorem matchSegsF_lbracket (f : Nat) (s : List Char) (ss : List (List Char)) :
    matchSegsF (f + 1) [['[']] (s :: ss) = .error .badPattern := by
  simp only [matchSegsF]
  rw [if_neg (by decide : ¬ (['['] : List Char) = ['*', '*'])]
  have hm : matchOneF (List.length ['['] + s.length + 1) ['['] s = .error .badPattern := by
    have he : List.length ['['] + s.length + 1 = (s.length + 1) + 1 := by
      show 1 + s.length + 1 = s.length + 1 + 1
      omega
    rw [he]
    exact matchOneF_lbracket_err (s.length + 1) [] s rfl
  show (match matchOneF (List.length ['['] + s.length + 1) ['['] s with
      | Except.error e => Except.error e
      | Except.ok true => matchSegsF f [] ss
      | Except.ok false => Except.ok false) = Except.error GlobErr.badPattern
  rw [hm]

theorem doublestarMatch_lbracket (k : List Char) :
    doublestarMatch ['['] k = .error .badPattern := by
  cases hs : splitSeg k with
  | nil => exact absurd hs (splitSeg_ne_nil k)
  | cons s ss =>
    unfold doublestarMatch
    rw [hs]
    exact matchSegsF_lbracket ((splitSeg ['[']).length + (ss.length + 1)) s ss

/-! ### The pattern consisting of a lone doublestar matches every key -/

theorem isPrefixOf_of_append (a t : List Char) : a.isPrefixOf (a ++ t) = true := by
  induction a with
  | nil => simp [List.isPrefixOf]
  | cons c as ih => simp [List.isPrefixOf, ih]

theorem matchSegsF_dstar :
    ∀ (f : Nat) (K : List (List Char)), K.length + 1 < f →
      matchSegsF f [['*', '*']] K = .ok true := by
  intro f
  induction f with
  | zero =>
    intro K h
    exact absurd h (by omega)
  | succ f ih =>
    intro K h
    simp only [matchSegsF, if_pos rfl]
    cases K with
    | nil =>
      obtain ⟨g, rfl⟩ : ∃ g, f = g + 1 := ⟨f - 1, by simp at h; omega⟩
      rw [show matchSegsF (g + 1) ([] : List (List Char)) [] = .ok true from rfl]
      simp
    | cons r rs =>
      obtain ⟨g, rfl⟩ : ∃ g, f = g + 1 := ⟨f - 1, by simp at h; omega⟩
      rw [show matchSegsF (g + 1) ([] : List (List Char)) (r :: rs) = .ok false from rfl]
      show matchSegsF (g + 1) [['*', '*']] rs = Except.ok true
      exact ih rs (by simp at h ⊢; omega)

theorem doublestarMatch_dstar (k : List Char) : doublestarMatch ['*', '*'] k = .ok true := by
  unfold doublestarMatch
  rw [show splitSeg ['*', '*'] = [['*', '*']] from rfl]
  exact matchSegsF_dstar _ _ (by simp only [List.length_cons, List.length_nil]; omega)

theorem runLoop_dstar (b : String) :
    ∀ keys : List String, runLoop ['*', '*'] b keys =
      .ok (keys.map (fun k => "gs://" ++ b ++ "/" ++ k), !keys.isEmpty) := by
  intro keys
  induction keys with
  | nil => rfl
  | cons k ks ih =>
    simp only [runLoop, doublestarMatch_dstar k.data, ih]
    simp

/-! ### Path-parsing lemmas -/

theorem splitN2_no_slash : ∀ (b : List Char), '/' ∉ b → splitN2 b = (b, none) := by
  intro b
  induction b with
  | nil => intro _; rfl
  | cons c bs ih =>
    intro h
    have hc : ¬ c = '/' := fun e => h (by simp [e])
    simp only [splitN2, if_neg hc, ih fun m => h (by simp [m])]

theorem splitN2_slash (r : List Char) :
    ∀ (b : List Char), '/' ∉ b → splitN2 (b ++ '/' :: r) = (b, some r) := by
  intro b
  induction b with
  | nil => intro _; simp [splitN2]
  | cons c bs ih =>
    intro h
    have hc : ¬ c = '/' := fun e => h (by simp [e])
    simp only [List.cons_append, splitN2, if_neg hc, List.append_eq]
    rw [ih fun m => h (by simp [m])]

theorem filter_emptyPfx : ∀ keys : List String,
    List.filter (fun k => (([] : List Char).isPrefixOf k.data)) keys = keys := by
  intro keys
  induction keys with
  | nil => rfl
  | cons k ks ih => simp [List.filter_cons, List.isPrefixOf, ih]

/-! ## The claims -/

/-- C1 (counterexample): the pattern `a/**` matches the key `a` (a trailing
`/**` matches zero segments), yet `getPrefixFromPattern` yields `a/`, which is
not a prefix of `a`; consequently the prefix-narrowed run over a bucket whose
only key is `a` misses that matching key and reports no matches, while an
unrestricted listing filtered by the full pattern would contain it. -/
theorem claim_C1_counterexample :
    doublestarMatch ("a/**").data ("a").data = .ok true ∧
    getPrefixFromPattern ("a/**").data = ("a/").data ∧
    (("a/").data.isPrefixOf ("a").data) = false ∧
    listObjectsWithWildcard "gs://b/a/**" ["a"] =
      .ok ["Listing objects in gs://b matching pattern: a/**",
        "No objects found matching the pattern."] :=
  ⟨by decide, by decide, by decide, by decide⟩

/-- C1 (amended): if a key satisfies the full glob-match predicate then either
the key starts with the literal prefix returned by `getPrefixFromPattern`, or
that prefix equals the key followed by `/` — the boundary case in which a
trailing `/**` of the pattern matched zero segments.  Prefix narrowing can
therefore exclude a matching key only in that boundary case. -/
theorem claim_C1 (p k : List Char) (h : doublestarMatch p k = .ok true) :
    getPrefixFromPattern p <+: k ∨ getPrefixFromPattern p = k ++ ['/'] := by
  rw [getPrefixFromPattern_eq_litPrefix]
  unfold doublestarMatch at h
  have h9 := matchSegsF_true_main _ _ _ h
  rw [joinSegs_splitSeg, joinSegs_splitSeg] at h9
  exact h9

/-- Witness for C1 at the concrete input `p = "a/**"`, `k = "a"`. -/
theorem claim_C1_witness :
    getPrefixFromPattern ("a/**").data <+: ("a").data ∨
      getPrefixFromPattern ("a/**").data = ("a").data ++ ['/'] :=
  claim_C1 ("a/**").data ("a").data (by decide)

/-- C2 (counterexample): with the syntactically invalid pattern `[` and a
backend listing that yields zero candidate keys, the run does not fail with a
`PatternError`; it completes successfully with the no-match message, because
the pattern is only ever validated per candidate inside the iteration loop. -/
theorem claim_C2_counterexample :
    listObjectsWithWildcard "gs://b/[" [] =
      .ok ["Listing objects in gs://b matching pattern: [",
        "No objects found matching the pattern."] := by
  decide

/-- C2 (amended): a run whose pattern is the unterminated bracket `[` fails
with a `PatternError` whenever the backend listing yields at least one
candidate key; with zero candidates it instead completes successfully (see
the counterexample). -/
theorem claim_C2 (k : String) (keys : List String) :
    listObjectsWithWildcard "gs://b/[" (k :: keys) = .error (.patternError "[") := by
  have h1 : doublestarMatch ['['] k.data = .error .badPattern :=
    doublestarMatch_lbracket k.data
  unfold listObjectsWithWildcard
  simp only [List.isPrefixOf, runLoop, h1,
    show splitN2 (List.drop 5 ['g', 's', ':', '/', '/', 'b', '/', '[']) = (['b'], some ['[']) from
      rfl,
    show getPrefixFromPattern ['['] = [] from rfl]
  try simp
  have ht : ((getPrefixFromPattern ['[']).isPrefixOf k.data) = true := by
    rw [show getPrefixFromPattern ['['] = [] from rfl]
    simp [List.isPrefixOf]
  rw [List.filter_cons, ht]
  simp only [if_pos trivial, runLoop, h1]

/-- C3 (counterexample): for the bucket `{a.csv, b/a.csv, b/c.txt}` and the
pattern `*.csv`, stdout is not the single matched-key line: the program first
prints the informational "Listing objects in ..." header line to stdout. -/
theorem claim_C3_counterexample :
    listObjectsWithWildcard "gs://bucket/*.csv" ["a.csv", "b/a.csv", "b/c.txt"] ≠
      .ok ["gs://bucket/a.csv"] := by
  decide

/-- C3 (amended): for the bucket `{a.csv, b/a.csv, b/c.txt}` and the pattern
`*.csv`, stdout consists of the header line followed by exactly the one
matched-key line `gs://bucket/a.csv`, and nothing else. -/
theorem claim_C3 :
    listObjectsWithWildcard "gs://bucket/*.csv" ["a.csv", "b/a.csv", "b/c.txt"] =
      .ok ["Listing objects in gs://bucket matching pattern: *.csv", "gs://bucket/a.csv"] := by
  decide

/-- C4: the glob-match predicate gives `**` recursive semantics: `**/*.csv`
matches `data.csv` (zero leading segments) and `sub/dir/data.csv` (several
leading segments). -/
theorem claim_C4 :
    doublestarMatch ("**/*.csv").data ("data.csv").data = .ok true ∧
    doublestarMatch ("**/*.csv").data ("sub/dir/data.csv").data = .ok true :=
  ⟨by decide, by decide⟩

/-- C5: a single `*` is confined to one path segment: `*.csv` matches
`data.csv` but not `sub/data.csv`. -/
theorem claim_C5 :
    doublestarMatch ("*.csv").data ("data.csv").data = .ok true ∧
    doublestarMatch ("*.csv").data ("sub/data.csv").data = .ok false :=
  ⟨by decide, by decide⟩

/-- C6: `getPrefixFromPattern` returns the substring strictly before the first
occurrence of any of `*`, `?`, `[` (rendered as the longest wildcard-free
leading run), returns the whole pattern when no such character occurs, and in
particular maps `logs/**/*.txt` to `logs/`. -/
theorem claim_C6 (p : List Char) :
    getPrefixFromPattern p = p.takeWhile (fun c => !isWildcardChar c) ∧
    ((∀ c ∈ p, isWildcardChar c = false) → getPrefixFromPattern p = p) ∧
    getPrefixFromPattern ("logs/**/*.txt").data = ("logs/").data := by
  refine ⟨?_, ?_, by decide⟩
  · rw [getPrefixFromPattern_eq_litPrefix, litPrefix_eq_takeWhile]
  · intro h
    rw [getPrefixFromPattern_eq_litPrefix, litPrefix_of_wildfree h]

/-- Witness for C6 at the wildcard-free concrete pattern `logs`. -/
theorem claim_C6_witness :
    getPrefixFromPattern ("logs").data = ("logs").data :=
  (claim_C6 ("logs").data).2.1 (by decide)

/-- C7: when the text after the bucket is empty — no `/` after the bucket
name, or nothing after that `/` — the pattern is rewritten to `**` and the run
matches every key in the bucket at any depth, printing one line per key (or
the no-match message for an empty bucket). -/
theorem claim_C7 (bucket : String) (keys : List String)
    (h1 : ¬ bucket.data = []) (h2 : '/' ∉ bucket.data) :
    listObjectsWithWildcard ("gs://" ++ bucket) keys =
      .ok (("Listing objects in gs://" ++ bucket ++ " matching pattern: " ++ "**") ::
        keys.map (fun k => "gs://" ++ bucket ++ "/" ++ k) ++
        (if keys.isEmpty then ["No objects found matching the pattern."] else [])) ∧
    listObjectsWithWildcard ("gs://" ++ bucket ++ "/") keys =
      .ok (("Listing objects in gs://" ++ bucket ++ " matching pattern: " ++ "**") ::
        keys.map (fun k => "gs://" ++ bucket ++ "/" ++ k) ++
        (if keys.isEmpty then ["No objects found matching the pattern."] else [])) := by
  constructor
  · unfold listObjectsWithWildcard
    rw [show ("gs://" ++ bucket).data = "gs://".data ++ bucket.data from rfl]
    simp only [isPrefixOf_of_append,
      show (List.drop 5 ("gs://".data ++ bucket.data)) = bucket.data from rfl,
      splitN2_no_slash bucket.data h2, if_neg h1, Option.getD_none,
      show ("**".data : List Char) = ['*', '*'] from rfl,
      show (⟨bucket.data⟩ : String) = bucket from rfl]
    simp only [show (false = false) = True from by simp, if_pos trivial, if_neg h1]
    have hfun : (fun (k : String) => (getPrefixFromPattern ['*', '*']).isPrefixOf k.data) =
        fun (k : String) => (([] : List Char).isPrefixOf k.data) := rfl
    rw [hfun, filter_emptyPfx, runLoop_dstar]
    cases keys with
    | nil => simp
    | cons k ks => simp
  · unfold listObjectsWithWildcard
    rw [show ("gs://" ++ bucket ++ "/").data = "gs://".data ++ (bucket.data ++ ['/']) from by
      show ("gs://".data ++ bucket.data) ++ ['/'] = "gs://".data ++ (bucket.data ++ ['/'])
      rw [List.append_assoc]]
    simp only [isPrefixOf_of_append,
      show ∀ x : List Char, List.drop 5 ("gs://".data ++ x) = x from fun x => rfl,
      show (bucket.data ++ ['/'] : List Char) = bucket.data ++ '/' :: [] from rfl,
      splitN2_slash [] bucket.data h2, if_neg h1, Option.getD_some,
      show ("**".data : List Char) = ['*', '*'] from rfl,
      show (⟨bucket.data⟩ : String) = bucket from rfl]
    simp only [if_neg (by simp : ¬ (true = false)), if_pos trivial]
    have hfun : (fun (k : String) => (getPrefixFromPattern ['*', '*']).isPrefixOf k.data) =
        fun (k : String) => (([] : List Char).isPrefixOf k.data) := rfl
    rw [hfun, filter_emptyPfx, runLoop_dstar]
    cases keys with
    | nil => simp
    | cons k ks => simp

/-- Witness for C7 at bucket `b` with keys `a.csv` and `d/x.txt`. -/
theorem claim_C7_witness :
    listObjectsWithWildcard ("gs://" ++ "b") ["a.csv", "d/x.txt"] =
      .ok (("Listing objects in gs://" ++ "b" ++ " matching pattern: " ++ "**") ::
        (["a.csv", "d/x.txt"] : List String).map (fun k => "gs://" ++ "b" ++ "/" ++ k) ++
        (if (["a.csv", "d/x.txt"] : List String).isEmpty then
          ["No objects found matching the pattern."] else [])) ∧
    listObjectsWithWildcard ("gs://" ++ "b" ++ "/") ["a.csv", "d/x.txt"] =
      .ok (("Listing objects in gs://" ++ "b" ++ " matching pattern: " ++ "**") ::
        (["a.csv", "d/x.txt"] : List String).map (fun k => "gs://" ++ "b" ++ "/" ++ k) ++
        (if (["a.csv", "d/x.txt"] : List String).isEmpty then
          ["No objects found matching the pattern."] else [])) :=
  claim_C7 "b" ["a.csv", "d/x.txt"] (by decide) (by decide)

/-- C8: an input that does not begin with the scheme prefix `gs://` is
rejected with the `InvalidPath` error before any backend interaction: the
result is the same error for every possible bucket content. -/
theorem claim_C8 (s : String) (keys : List String)
    (h : ("gs://".data.isPrefixOf s.data) = false) :
    listObjectsWithWildcard s keys =
      .error (.invalidPath "invalid GCS path: must start with gs://") := by
  unfold listObjectsWithWildcard
  rw [if_pos h]

/-- Witness for C8 at the concrete input `http://x/y`. -/
theorem claim_C8_witness :
    listObjectsWithWildcard "http://x/y" ["k"] =
      .error (.invalidPath "invalid GCS path: must start with gs://") :=
  claim_C8 "http://x/y" ["k"] (by decide)

/-- C9: an input that begins with `gs://` but whose bucket segment (the text
before the first `/` after the scheme) is empty is rejected with the
`InvalidPath` error before any backend interaction: the result is the same
error for every possible bucket content. -/
theorem claim_C9 (s : String) (keys : List String)
    (hp : ("gs://".data.isPrefixOf s.data) = true)
    (hb : s.data.drop 5 = [] ∨ (s.data.drop 5).head? = some '/') :
    listObjectsWithWildcard s keys =
      .error (.invalidPath "invalid GCS path: bucket name is missing") := by
  unfold listObjectsWithWildcard
  rw [if_neg (by simp [hp])]
  have hsplit : (splitN2 (s.data.drop 5)).1 = [] := by
    rcases hb with hb | hb
    · rw [hb]
      rfl
    · cases hd : s.data.drop 5 with
      | nil => rfl
      | cons c t =>
        rw [hd] at hb
        simp only [List.head?_cons, Option.some.injEq] at hb
        subst hb
        simp [splitN2]
  rw [if_pos hsplit]

/-- Witness for C9 at the concrete input `gs:///x`. -/
theorem claim_C9_witness :
    listObjectsWithWildcard "gs:///x" ["k"] =
      .error (.invalidPath "invalid GCS path: bucket name is missing") :=
  claim_C9 "gs:///x" ["k"] (by decide) (Or.inr (by decide))

/-- C10: `getPrefixFromPattern` always returns a literal prefix of its input
containing no wildcard character, and is therefore idempotent. -/
theorem claim_C10 (p : List Char) :
    getPrefixFromPattern p <+: p ∧
    (getPrefixFromPattern p).all (fun c => !isWildcardChar c) = true ∧
    getPrefixFromPattern (getPrefixFromPattern p) = getPrefixFromPattern p := by
  refine ⟨?_, ?_, ?_⟩
  · rw [getPrefixFromPattern_eq_litPrefix]
    exact litPrefix_le p
  · rw [getPrefixFromPattern_eq_litPrefix]
    simp only [List.all_eq_true]
    intro c hc
    simp [litPrefix_wildfree p c hc]
  · simp only [getPrefixFromPattern_eq_litPrefix]
    exact litPrefix_idem p

end Gcsls
